import Mathlib

/-!
Verification of the benchmark execution and measurement engine of
`field-ops-benchmarks`: the operation/backend capability model, the
calibration transform, the statistics reduction, and cross-backend
result aggregation, shallowly embedded from the Rust source
(`src/lib.rs`, `src/config.rs`, `src/results.rs`, `src/reporter.rs`,
`src/main.rs`, `src/metal/runner.rs`, `src/webgpu/runner.rs`).

Machine integers are modelled as `Nat` with explicit `% 2^32` where the
source uses wrapping 32-bit arithmetic; `f64` statistics are modelled
exactly over `ℚ` (the source's `std_dev_ns` is the square root of the
variance, which we keep as the exact radicand `variance_ns` and take
`Real.sqrt` of in statements).
-/

namespace FieldOps

/-- Source `Backend` enum from `src/lib.rs`. -/
inductive Backend where
  | Metal
  | WebGPU
deriving DecidableEq, Repr

/-- Source `Backend::name` from `src/lib.rs`. -/
def Backend.name : Backend → String
  | .Metal => "Metal"
  | .WebGPU => "WebGPU"

/-- Source `Backend::has_native_u64` from `src/lib.rs`: true exactly for Metal. -/
def Backend.has_native_u64 : Backend → Bool
  | .Metal => true
  | .WebGPU => false

/-- Source `Backend::all` from `src/lib.rs`. -/
def Backend.all : List Backend := [.Metal, .WebGPU]

/-- Source `Operation` enum from `src/lib.rs`. -/
inductive Operation where
  | U32Add
  | U64AddNative
  | U64AddEmulated
  | FieldMul
  | FieldAdd
  | MersenneFieldAdd
  | MersenneFieldMul
deriving DecidableEq, Repr

/-- Source `Operation::name` from `src/lib.rs`. -/
def Operation.name : Operation → String
  | .U32Add => "u32_add"
  | .U64AddNative => "u64_add_native"
  | .U64AddEmulated => "u64_add_emulated"
  | .FieldMul => "field_mul"
  | .FieldAdd => "field_add"
  | .MersenneFieldAdd => "mersenne_field_add"
  | .MersenneFieldMul => "mersenne_field_mul"

/-- Source `Operation::requires_native_u64` from `src/lib.rs`. -/
def Operation.requires_native_u64 : Operation → Bool
  | .U64AddNative => true
  | _ => false

/-- Source `Operation::is_emulation_only` from `src/lib.rs`. -/
def Operation.is_emulation_only : Operation → Bool
  | .U64AddEmulated => true
  | _ => false

/-- Source `Operation::calibrated_ops_per_thread` from `src/lib.rs`. -/
def Operation.calibrated_ops_per_thread : Operation → Nat
  | .U32Add => 1000
  | .U64AddNative => 1000
  | .U64AddEmulated => 500
  | .FieldMul => 20
  | .FieldAdd => 20
  | .MersenneFieldAdd => 500
  | .MersenneFieldMul => 200

/-- Source `Operation::all` from `src/lib.rs`, in declaration order. -/
def Operation.all : List Operation :=
  [.U32Add, .U64AddNative, .U64AddEmulated, .FieldMul, .FieldAdd,
   .MersenneFieldAdd, .MersenneFieldMul]

/-- Source `Operation::available_for` from `src/lib.rs`: filters `all` by the
backend-capability predicate (`requires_native_u64` demands a native-u64
backend, `is_emulation_only` demands a non-native-u64 backend). -/
def Operation.available_for (backend : Backend) : List Operation :=
  Operation.all.filter (fun op =>
    if op.requires_native_u64 then backend.has_native_u64
    else if op.is_emulation_only then !backend.has_native_u64
    else true)

/-- Source `timings_ns.iter().min().unwrap_or(&0)` from
`BenchmarkResult::from_timings` in `src/results.rs`: the least element of
the sample list, or 0 on an empty list. -/
def iterMin (l : List Nat) : Nat :=
  match l with
  | [] => 0
  | t :: ts => ts.foldl Nat.min t

/-- Source `timings_ns.iter().max().unwrap_or(&0)` from
`BenchmarkResult::from_timings` in `src/results.rs`: the greatest element
of the sample list, or 0 on an empty list. -/
def iterMax (l : List Nat) : Nat :=
  match l with
  | [] => 0
  | t :: ts => ts.foldl Nat.max t

/-- Source `BenchmarkResult` from `src/results.rs`. Timing samples are in integer
nanoseconds; the `f64` fields `mean_ns` and `gops_per_second` are modelled
exactly over `ℚ`. The source field `std_dev_ns` is the square root of the
population variance; we store the exact radicand `variance_ns : ℚ`, and
statements about `std_dev_ns` use `Real.sqrt variance_ns`. -/
structure BenchmarkResult where
  backend : String
  operation : String
  workgroup_size : Nat
  total_threads : Nat
  ops_per_thread : Nat
  total_operations : Nat
  min_ns : Nat
  max_ns : Nat
  mean_ns : ℚ
  variance_ns : ℚ
  gops_per_second : ℚ
deriving DecidableEq, Repr

/-- Source `let mean_ns = sum as f64 / timings_ns.len().max(1) as f64`
from `BenchmarkResult::from_timings` in `src/results.rs`, exactly over
`ℚ`. -/
def meanNs (timings_ns : List Nat) : ℚ :=
  (timings_ns.sum : ℚ) / ((Nat.max timings_ns.length 1 : Nat) : ℚ)

/-- Source `let variance = ... Σ (t - mean_ns)^2 / len.max(1)` from
`BenchmarkResult::from_timings` in `src/results.rs` (population variance),
exactly over `ℚ`; the source stores its square root as `std_dev_ns`. -/
def varianceNs (timings_ns : List Nat) : ℚ :=
  (timings_ns.map (fun (t : Nat) => ((t : ℚ) - meanNs timings_ns) ^ 2)).sum /
    ((Nat.max timings_ns.length 1 : Nat) : ℚ)

/-- Source `let gops_per_second = if min_ns > 0 { total_operations /
(min_ns / 1e9) / 1e9 } else { 0.0 }` from `BenchmarkResult::from_timings`
in `src/results.rs`, exactly over `ℚ`. -/
def gopsPerSecond (total_operations min_ns : Nat) : ℚ :=
  if 0 < min_ns then
    (total_operations : ℚ) / ((min_ns : ℚ) / (10 ^ 9 : ℚ)) / (10 ^ 9 : ℚ)
  else 0

/-- Source `BenchmarkResult::from_timings` from `src/results.rs`, over the
nanosecond values of the duration samples: extrema with 0 fallback, mean
`sum / len.max(1)`, population variance `Σ (t - mean)² / len.max(1)`,
`total_operations = total_threads * ops_per_thread`, and throughput
`total_operations / (min_ns / 1e9) / 1e9` guarded by `min_ns > 0`. -/
def BenchmarkResult.from_timings (backend : Backend) (operation : Operation)
    (workgroup_size total_threads ops_per_thread : Nat)
    (timings_ns : List Nat) : BenchmarkResult :=
  let min_ns := iterMin timings_ns
  let max_ns := iterMax timings_ns
  let mean_ns : ℚ := meanNs timings_ns
  let variance_ns : ℚ := varianceNs timings_ns
  let total_operations := total_threads * ops_per_thread
  let gops_per_second : ℚ := gopsPerSecond total_operations min_ns
  { backend := backend.name
    operation := operation.name
    workgroup_size := workgroup_size
    total_threads := total_threads
    ops_per_thread := ops_per_thread
    total_operations := total_operations
    min_ns := min_ns
    max_ns := max_ns
    mean_ns := mean_ns
    variance_ns := variance_ns
    gops_per_second := gops_per_second }

end FieldOps

namespace FieldOps

/-- A left fold by `Nat.min` is bounded by its initial accumulator. -/
theorem foldl_min_le_init (ts : List Nat) (a : Nat) :
    ts.foldl Nat.min a ≤ a := by
  induction ts generalizing a with
  | nil => exact Nat.le_refl a
  | cons t ts ih =>
    exact Nat.le_trans (ih (Nat.min a t)) (Nat.min_le_left a t)

/-- A left fold by `Nat.min` is bounded by every list element. -/
theorem foldl_min_le_mem (ts : List Nat) (a x : Nat) (hx : x ∈ ts) :
    ts.foldl Nat.min a ≤ x := by
  induction ts generalizing a with
  | nil => cases hx
  | cons t ts ih =>
    rcases List.mem_cons.mp hx with h | h
    · subst h
      exact Nat.le_trans (foldl_min_le_init ts (Nat.min a x)) (Nat.min_le_right a x)
    · exact ih (Nat.min a t) h

/-- A left fold by `Nat.min` returns the accumulator or a list element. -/
theorem foldl_min_mem (ts : List Nat) (a : Nat) :
    ts.foldl Nat.min a = a ∨ ts.foldl Nat.min a ∈ ts := by
  induction ts generalizing a with
  | nil => exact Or.inl rfl
  | cons t ts ih =>
    rcases ih (Nat.min a t) with h | h
    · rcases Nat.le_total a t with hle | hle
      · exact Or.inl (h.trans (Nat.min_eq_left hle))
      · exact Or.inr (List.mem_cons.mpr (Or.inl (h.trans (Nat.min_eq_right hle))))
    · exact Or.inr (List.mem_cons.mpr (Or.inr h))

/-- A left fold by `Nat.max` is at least its initial accumulator. -/
theorem init_le_foldl_max (ts : List Nat) (a : Nat) :
    a ≤ ts.foldl Nat.max a := by
  induction ts generalizing a with
  | nil => exact Nat.le_refl a
  | cons t ts ih =>
    exact Nat.le_trans (Nat.le_max_left a t) (ih (Nat.max a t))

/-- A left fold by `Nat.max` bounds every list element from above. -/
theorem mem_le_foldl_max (ts : List Nat) (a x : Nat) (hx : x ∈ ts) :
    x ≤ ts.foldl Nat.max a := by
  induction ts generalizing a with
  | nil => cases hx
  | cons t ts ih =>
    rcases List.mem_cons.mp hx with h | h
    · subst h
      exact Nat.le_trans (Nat.le_max_right a x) (init_le_foldl_max ts (Nat.max a x))
    · exact ih (Nat.max a t) h

/-- A left fold by `Nat.max` returns the accumulator or a list element. -/
theorem foldl_max_mem (ts : List Nat) (a : Nat) :
    ts.foldl Nat.max a = a ∨ ts.foldl Nat.max a ∈ ts := by
  induction ts generalizing a with
  | nil => exact Or.inl rfl
  | cons t ts ih =>
    rcases ih (Nat.max a t) with h | h
    · rcases Nat.le_total a t with hle | hle
      · exact Or.inr (List.mem_cons.mpr (Or.inl (h.trans (Nat.max_eq_right hle))))
      · exact Or.inl (h.trans (Nat.max_eq_left hle))
    · exact Or.inr (List.mem_cons.mpr (Or.inr h))

/-- The value `iterMin l` of a non-empty list is a lower bound of its elements. -/
theorem iterMin_le (l : List Nat) (x : Nat) (hx : x ∈ l) : iterMin l ≤ x := by
  cases l with
  | nil => cases hx
  | cons t ts =>
    rcases List.mem_cons.mp hx with h | h
    · subst h
      exact foldl_min_le_init ts x
    · exact foldl_min_le_mem ts t x h

/-- The value `iterMin l` of a non-empty list is one of its elements. -/
theorem iterMin_mem (l : List Nat) (h : l ≠ []) : iterMin l ∈ l := by
  cases l with
  | nil => exact absurd rfl h
  | cons t ts =>
    rcases foldl_min_mem ts t with hm | hm
    · exact List.mem_cons.mpr (Or.inl hm)
    · exact List.mem_cons.mpr (Or.inr hm)

/-- The value `iterMax l` of a non-empty list is an upper bound of its elements. -/
theorem le_iterMax (l : List Nat) (x : Nat) (hx : x ∈ l) : x ≤ iterMax l := by
  cases l with
  | nil => cases hx
  | cons t ts =>
    rcases List.mem_cons.mp hx with h | h
    · subst h
      exact init_le_foldl_max ts x
    · exact mem_le_foldl_max ts t x h

/-- The value `iterMax l` of a non-empty list is one of its elements. -/
theorem iterMax_mem (l : List Nat) (h : l ≠ []) : iterMax l ∈ l := by
  cases l with
  | nil => exact absurd rfl h
  | cons t ts =>
    rcases foldl_max_mem ts t with hm | hm
    · exact List.mem_cons.mpr (Or.inl hm)
    · exact List.mem_cons.mpr (Or.inr hm)

/-- A list sum is at least its length times a common lower bound. -/
theorem length_mul_le_sum (l : List Nat) (m : Nat) (h : ∀ x ∈ l, m ≤ x) :
    l.length * m ≤ l.sum := by
  induction l with
  | nil => simp
  | cons t ts ih =>
    have ht : m ≤ t := h t (List.mem_cons_self t ts)
    have hts : ts.length * m ≤ ts.sum :=
      ih (fun x hx => h x (List.mem_cons_of_mem t hx))
    simp only [List.length_cons, List.sum_cons]
    calc (ts.length + 1) * m = m + ts.length * m := by ring
    _ ≤ t + ts.sum := Nat.add_le_add ht hts

/-- A list sum is at most its length times a common upper bound. -/
theorem sum_le_length_mul (l : List Nat) (m : Nat) (h : ∀ x ∈ l, x ≤ m) :
    l.sum ≤ l.length * m := by
  induction l with
  | nil => simp
  | cons t ts ih =>
    have ht : t ≤ m := h t (List.mem_cons_self t ts)
    have hts : ts.sum ≤ ts.length * m :=
      ih (fun x hx => h x (List.mem_cons_of_mem t hx))
    simp only [List.length_cons, List.sum_cons]
    calc t + ts.sum ≤ m + ts.length * m := Nat.add_le_add ht hts
    _ = (ts.length + 1) * m := by ring

/-- For a non-empty list, the source's `len.max(1)` is just the length. -/
theorem max_length_one (l : List Nat) (h : l ≠ []) :
    Nat.max l.length 1 = l.length :=
  Nat.max_eq_left (List.length_pos.mpr h)

/-- The mean of a non-empty sample list is at least its minimum. -/
theorem iterMin_le_meanNs (l : List Nat) (h : l ≠ []) :
    (iterMin l : ℚ) ≤ meanNs l := by
  have hlen : 0 < l.length := List.length_pos.mpr h
  have hsum : l.length * iterMin l ≤ l.sum :=
    length_mul_le_sum l (iterMin l) (fun x hx => iterMin_le l x hx)
  unfold meanNs
  rw [max_length_one l h, le_div_iff₀ (by exact_mod_cast hlen)]
  calc (iterMin l : ℚ) * (l.length : ℚ)
      = ((l.length * iterMin l : Nat) : ℚ) := by push_cast; ring
  _ ≤ (l.sum : ℚ) := by exact_mod_cast hsum

/-- The mean of a non-empty sample list is at most its maximum. -/
theorem meanNs_le_iterMax (l : List Nat) (h : l ≠ []) :
    meanNs l ≤ (iterMax l : ℚ) := by
  have hlen : 0 < l.length := List.length_pos.mpr h
  have hsum : l.sum ≤ l.length * iterMax l :=
    sum_le_length_mul l (iterMax l) (fun x hx => le_iterMax l x hx)
  unfold meanNs
  rw [max_length_one l h, div_le_iff₀ (by exact_mod_cast hlen)]
  calc (l.sum : ℚ) ≤ ((l.length * iterMax l : Nat) : ℚ) := by exact_mod_cast hsum
  _ = (iterMax l : ℚ) * (l.length : ℚ) := by push_cast; ring

/-- The population variance of any sample list is non-negative. -/
theorem varianceNs_nonneg (l : List Nat) : 0 ≤ varianceNs l := by
  unfold varianceNs
  apply div_nonneg
  · apply List.sum_nonneg
    intro x hx
    obtain ⟨t, _, rfl⟩ := List.mem_map.mp hx
    positivity
  · positivity

/-- The sum of a constant list is its length times the constant. -/
theorem sum_const_list (l : List Nat) (d : Nat) (h : ∀ x ∈ l, x = d) :
    l.sum = l.length * d := by
  induction l with
  | nil => simp
  | cons t ts ih =>
    have ht : t = d := h t (List.mem_cons_self t ts)
    have hts : ts.sum = ts.length * d :=
      ih (fun x hx => h x (List.mem_cons_of_mem t hx))
    simp only [List.length_cons, List.sum_cons, ht, hts]
    ring

/-- The mean of a non-empty constant list is the constant. -/
theorem meanNs_const (l : List Nat) (d : Nat) (hne : l ≠ [])
    (h : ∀ x ∈ l, x = d) : meanNs l = (d : ℚ) := by
  have hlen : 0 < l.length := List.length_pos.mpr hne
  have hlq : ((l.length : ℚ)) ≠ 0 := by exact_mod_cast Nat.pos_iff_ne_zero.mp hlen
  unfold meanNs
  rw [max_length_one l hne, sum_const_list l d h]
  push_cast
  rw [mul_comm, mul_div_assoc, div_self hlq, mul_one]

/-- The population variance of a non-empty constant list is zero. -/
theorem varianceNs_const (l : List Nat) (d : Nat) (hne : l ≠ [])
    (h : ∀ x ∈ l, x = d) : varianceNs l = 0 := by
  unfold varianceNs
  have hz : (l.map (fun (t : Nat) => ((t : ℚ) - meanNs l) ^ 2)).sum = 0 := by
    apply List.sum_eq_zero
    intro x hx
    obtain ⟨u, hu, rfl⟩ := List.mem_map.mp hx
    rw [h u hu, meanNs_const l d hne h]
    ring
  rw [hz, zero_div]

/-- The minimum of a non-empty constant list is the constant. -/
theorem iterMin_const (l : List Nat) (d : Nat) (hne : l ≠ [])
    (h : ∀ x ∈ l, x = d) : iterMin l = d :=
  h (iterMin l) (iterMin_mem l hne)

/-- The maximum of a non-empty constant list is the constant. -/
theorem iterMax_const (l : List Nat) (d : Nat) (hne : l ≠ [])
    (h : ∀ x ∈ l, x = d) : iterMax l = d :=
  h (iterMax l) (iterMax_mem l hne)

end FieldOps

namespace FieldOps

/-- C1 counterexample: at backend Metal and operation U64AddNative, the
operation IS a member of `available_for(Metal)`, yet the claim's formula
`(¬requires_native_wide o) ∧ ¬(is_emulation_only o ∧ has_native_u64 b)`
evaluates to false, so the claimed equivalence fails at this pair. -/
theorem c1_formula_fails_at_metal_u64native :
    Operation.U64AddNative ∈ Operation.available_for Backend.Metal ∧
    ¬((¬(Operation.U64AddNative.requires_native_u64 = true)) ∧
      ¬(Operation.U64AddNative.is_emulation_only = true ∧
        Backend.Metal.has_native_u64 = true)) := by
  decide

/-- C1 (amended): for every backend `b` and operation `o`,
`o ∈ available_for b` iff (`requires_native_u64 o` implies
`has_native_u64 b`) and not (`is_emulation_only o` and
`has_native_u64 b`); checked over all 2 backends and 7 operations. -/
theorem available_for_iff (b : Backend) (o : Operation) :
    o ∈ Operation.available_for b ↔
      ((o.requires_native_u64 = true → b.has_native_u64 = true) ∧
       ¬(o.is_emulation_only = true ∧ b.has_native_u64 = true)) := by
  cases b <;> cases o <;> decide

end FieldOps

namespace FieldOps

/-- Projection: `from_timings` records the sample minimum as `min_ns`. -/
theorem from_timings_min_ns (b : Backend) (op : Operation)
    (wg tt opt : Nat) (l : List Nat) :
    (BenchmarkResult.from_timings b op wg tt opt l).min_ns = iterMin l := rfl

/-- Projection: `from_timings` records the sample maximum as `max_ns`. -/
theorem from_timings_max_ns (b : Backend) (op : Operation)
    (wg tt opt : Nat) (l : List Nat) :
    (BenchmarkResult.from_timings b op wg tt opt l).max_ns = iterMax l := rfl

/-- Projection: `from_timings` records the sample mean as `mean_ns`. -/
theorem from_timings_mean_ns (b : Backend) (op : Operation)
    (wg tt opt : Nat) (l : List Nat) :
    (BenchmarkResult.from_timings b op wg tt opt l).mean_ns = meanNs l := rfl

/-- Projection: `from_timings` records the population variance. -/
theorem from_timings_variance_ns (b : Backend) (op : Operation)
    (wg tt opt : Nat) (l : List Nat) :
    (BenchmarkResult.from_timings b op wg tt opt l).variance_ns =
      varianceNs l := rfl

/-- Projection: `from_timings` computes `total_operations` and derives the
throughput from the minimum sample. -/
theorem from_timings_gops (b : Backend) (op : Operation)
    (wg tt opt : Nat) (l : List Nat) :
    (BenchmarkResult.from_timings b op wg tt opt l).gops_per_second =
      gopsPerSecond (tt * opt) (iterMin l) := rfl

/-- C2: for every non-empty nanosecond sample list, the result of
`BenchmarkResult::from_timings` satisfies `min_ns ≤ mean_ns ≤ max_ns` and
`std_dev_ns = Real.sqrt variance_ns ≥ 0`; and when every sample equals a
constant `d`, the standard deviation is 0 and `mean_ns = min_ns = max_ns
= d`. -/
theorem from_timings_stats (b : Backend) (op : Operation)
    (wg tt opt : Nat) (l : List Nat) (h : l ≠ []) :
    (((BenchmarkResult.from_timings b op wg tt opt l).min_ns : ℚ) ≤
        (BenchmarkResult.from_timings b op wg tt opt l).mean_ns ∧
      (BenchmarkResult.from_timings b op wg tt opt l).mean_ns ≤
        ((BenchmarkResult.from_timings b op wg tt opt l).max_ns : ℚ) ∧
      (0 : ℝ) ≤
        Real.sqrt
          ((BenchmarkResult.from_timings b op wg tt opt l).variance_ns : ℚ)) ∧
    ∀ d : Nat, (∀ x ∈ l, x = d) →
      Real.sqrt
          ((BenchmarkResult.from_timings b op wg tt opt l).variance_ns : ℚ) = 0 ∧
      (BenchmarkResult.from_timings b op wg tt opt l).mean_ns = (d : ℚ) ∧
      (BenchmarkResult.from_timings b op wg tt opt l).min_ns = d ∧
      (BenchmarkResult.from_timings b op wg tt opt l).max_ns = d := by
  rw [from_timings_min_ns, from_timings_max_ns, from_timings_mean_ns,
    from_timings_variance_ns]
  refine ⟨⟨iterMin_le_meanNs l h, meanNs_le_iterMax l h, Real.sqrt_nonneg _⟩,
    fun d hd => ⟨?_, meanNs_const l d h hd, iterMin_const l d h hd,
      iterMax_const l d h hd⟩⟩
  rw [varianceNs_const l d h hd]
  simp [Real.sqrt_zero]

/-- C2 witness: at the constant sample list `[7, 7]`, the statistics of
`from_timings` collapse to the constant and the deviation vanishes. -/
theorem from_timings_stats_witness :
    (([7, 7] : List Nat) ≠ []) ∧
    (Real.sqrt
        ((BenchmarkResult.from_timings Backend.Metal Operation.U32Add
            64 65536 100 [7, 7]).variance_ns : ℚ) = 0 ∧
      (BenchmarkResult.from_timings Backend.Metal Operation.U32Add
          64 65536 100 [7, 7]).mean_ns = ((7 : Nat) : ℚ) ∧
      (BenchmarkResult.from_timings Backend.Metal Operation.U32Add
          64 65536 100 [7, 7]).min_ns = 7 ∧
      (BenchmarkResult.from_timings Backend.Metal Operation.U32Add
          64 65536 100 [7, 7]).max_ns = 7) :=
  ⟨by decide,
    (from_timings_stats Backend.Metal Operation.U32Add 64 65536 100 [7, 7]
      (by decide)).2 7 (by decide)⟩

/-- C3: for a non-empty sample list with `total_operations = tt * opt`,
the throughput of the result of `from_timings` equals
`total_operations / (min_ns / 1e9) / 1e9` computed from the minimum
sample when that minimum is positive, and equals 0 when the minimum
sample is 0. -/
theorem from_timings_throughput (b : Backend) (op : Operation)
    (wg tt opt : Nat) (l : List Nat) (h : l ≠ []) :
    (0 < iterMin l →
      (BenchmarkResult.from_timings b op wg tt opt l).gops_per_second =
        ((tt * opt : Nat) : ℚ) / ((iterMin l : ℚ) / (10 ^ 9 : ℚ)) /
          (10 ^ 9 : ℚ)) ∧
    (iterMin l = 0 →
      (BenchmarkResult.from_timings b op wg tt opt l).gops_per_second = 0) := by
  rw [from_timings_gops]
  constructor
  · intro hpos
    rw [gopsPerSecond, if_pos hpos]
  · intro hzero
    rw [gopsPerSecond, hzero]
    simp

/-- C3 witness: at sample list `[2]` the throughput formula applies with
minimum 2. -/
theorem from_timings_throughput_witness :
    (([2] : List Nat) ≠ []) ∧
    (BenchmarkResult.from_timings Backend.WebGPU Operation.U32Add
        64 65536 100 [2]).gops_per_second =
      ((65536 * 100 : Nat) : ℚ) / ((iterMin [2] : ℚ) / (10 ^ 9 : ℚ)) /
        (10 ^ 9 : ℚ) :=
  ⟨by decide,
    (from_timings_throughput Backend.WebGPU Operation.U32Add 64 65536 100 [2]
      (by decide)).1 (by decide)⟩

/-- C10: `BenchmarkResult::from_timings` is total on the empty sample
list: every statistic of the produced result is zero (minimum, maximum,
mean, variance, standard deviation and throughput), with no failure. -/
theorem from_timings_empty_total (b : Backend) (op : Operation)
    (wg tt opt : Nat) :
    (BenchmarkResult.from_timings b op wg tt opt []).min_ns = 0 ∧
    (BenchmarkResult.from_timings b op wg tt opt []).max_ns = 0 ∧
    (BenchmarkResult.from_timings b op wg tt opt []).mean_ns = 0 ∧
    (BenchmarkResult.from_timings b op wg tt opt []).variance_ns = 0 ∧
    Real.sqrt ((BenchmarkResult.from_timings b op wg tt opt
        []).variance_ns : ℚ) = 0 ∧
    (BenchmarkResult.from_timings b op wg tt opt []).gops_per_second = 0 := by
  rw [from_timings_min_ns, from_timings_max_ns, from_timings_mean_ns,
    from_timings_variance_ns, from_timings_gops]
  refine ⟨rfl, rfl, ?_, ?_, ?_, ?_⟩
  · simp [meanNs]
  · simp [varianceNs]
  · simp [varianceNs]
  · simp [gopsPerSecond, iterMin]

end FieldOps

namespace FieldOps

/-- Source `BenchmarkConfig` from `src/config.rs`. -/
structure BenchmarkConfig where
  ops_per_thread : Nat
  workgroup_size : Nat
  num_workgroups : Nat
  warmup_iterations : Nat
  measurement_iterations : Nat
  seed : Nat
  auto_calibrate : Bool
deriving DecidableEq, Repr

/-- Source `impl Default for BenchmarkConfig` from `src/config.rs`. -/
def BenchmarkConfig.default : BenchmarkConfig :=
  { ops_per_thread := 100
    workgroup_size := 64
    num_workgroups := 1024
    warmup_iterations := 3
    measurement_iterations := 10
    seed := 0x12345678
    auto_calibrate := true }

/-- Source `BenchmarkConfig::for_operation` from `src/config.rs`: when
`auto_calibrate` is set, replace `ops_per_thread` by the operation's
calibrated default, otherwise return the configuration unchanged. -/
def BenchmarkConfig.for_operation (cfg : BenchmarkConfig)
    (op : Operation) : BenchmarkConfig :=
  if cfg.auto_calibrate then
    { cfg with ops_per_thread := op.calibrated_ops_per_thread }
  else cfg

/-- Source `BenchmarkConfig::total_threads` from `src/config.rs`. -/
def BenchmarkConfig.total_threads (cfg : BenchmarkConfig) : Nat :=
  cfg.workgroup_size * cfg.num_workgroups

/-- C9: the calibration transform replaces `ops_per_thread` by the
operation's calibrated default exactly when `auto_calibrate` is true,
passes every other field through unmodified, and is idempotent for the
same operation. -/
theorem for_operation_spec (cfg : BenchmarkConfig) (op : Operation) :
    (cfg.for_operation op).ops_per_thread =
      (if cfg.auto_calibrate then op.calibrated_ops_per_thread
       else cfg.ops_per_thread) ∧
    (cfg.for_operation op).workgroup_size = cfg.workgroup_size ∧
    (cfg.for_operation op).num_workgroups = cfg.num_workgroups ∧
    (cfg.for_operation op).warmup_iterations = cfg.warmup_iterations ∧
    (cfg.for_operation op).measurement_iterations =
      cfg.measurement_iterations ∧
    (cfg.for_operation op).seed = cfg.seed ∧
    (cfg.for_operation op).auto_calibrate = cfg.auto_calibrate ∧
    (cfg.for_operation op).for_operation op = cfg.for_operation op := by
  unfold BenchmarkConfig.for_operation
  by_cases hc : cfg.auto_calibrate <;> simp [hc]

end FieldOps

namespace FieldOps

/-- Source `BenchmarkError` from `src/lib.rs` (error payload strings kept,
`Io` carries its message). -/
inductive BenchmarkError where
  | noDevice
  | backendNotAvailable (msg : String)
  | shaderCompilation (msg : String)
  | pipelineCreation (msg : String)
  | bufferCreation (msg : String)
  | execution (msg : String)
  | io (msg : String)
deriving DecidableEq, Repr

/-- Source `BenchmarkReport` from `src/results.rs`. The `timestamp` field
is omitted: it is read from the wall clock (`chrono_lite_timestamp`),
external to this model, and no claim constrains it. -/
structure BenchmarkReport where
  device_name : String
  device_vendor : String
  results : List BenchmarkResult
deriving DecidableEq, Repr

/-- Source `BenchmarkReport::new` from `src/results.rs` (modulo the
omitted timestamp): empty result list with the given labels. -/
def BenchmarkReport.new (device_name device_vendor : String) :
    BenchmarkReport :=
  { device_name := device_name, device_vendor := device_vendor,
    results := [] }

/-- Source `BenchmarkReport::add_result` from `src/results.rs`:
append-only push. -/
def BenchmarkReport.add_result (rep : BenchmarkReport)
    (result : BenchmarkResult) : BenchmarkReport :=
  { rep with results := rep.results ++ [result] }

/-- Source `BenchmarkResult::min_ms` from `src/results.rs`. -/
def BenchmarkResult.min_ms (r : BenchmarkResult) : ℚ :=
  (r.min_ns : ℚ) / (10 ^ 6 : ℚ)

/-- Source `BenchmarkReport::u64_overhead` from `src/results.rs`: find
the first `u64_add_native` and first `u64_add_emulated` results (the `?`
operator returns `None` when either is absent), then return
`Some(emulated.min_ms / native.min_ms)` when the native throughput is
positive, `None` otherwise. -/
def BenchmarkReport.u64_overhead (rep : BenchmarkReport) : Option ℚ :=
  match rep.results.find? (fun r => r.operation == "u64_add_native") with
  | none => none
  | some native =>
    match rep.results.find? (fun r => r.operation == "u64_add_emulated") with
    | none => none
    | some emulated =>
      if 0 < native.gops_per_second then
        some (emulated.min_ms / native.min_ms)
      else none

end FieldOps

namespace FieldOps

/-- C6 counterexample: a report containing both the native and the
emulated wide-add result (the native one produced by `from_timings` from
a zero-nanosecond sample, so its throughput is 0) yields `u64_overhead =
none`, although the claim requires `Some` whenever both variants are
present. -/
theorem u64_overhead_none_with_both_present :
    (BenchmarkReport.mk "Dev" "Vendor"
        [BenchmarkResult.from_timings Backend.Metal Operation.U64AddNative
           64 65536 100 [0],
         BenchmarkResult.from_timings Backend.WebGPU Operation.U64AddEmulated
           64 65536 100 [1000]]).u64_overhead = none ∧
    ((BenchmarkReport.mk "Dev" "Vendor"
        [BenchmarkResult.from_timings Backend.Metal Operation.U64AddNative
           64 65536 100 [0],
         BenchmarkResult.from_timings Backend.WebGPU Operation.U64AddEmulated
           64 65536 100 [1000]]).results.any
      (fun r => r.operation == "u64_add_native")) = true ∧
    ((BenchmarkReport.mk "Dev" "Vendor"
        [BenchmarkResult.from_timings Backend.Metal Operation.U64AddNative
           64 65536 100 [0],
         BenchmarkResult.from_timings Backend.WebGPU Operation.U64AddEmulated
           64 65536 100 [1000]]).results.any
      (fun r => r.operation == "u64_add_emulated")) = true := by
  decide

/-- C6 (amended): `u64_overhead` yields a value exactly when the report
contains a `u64_add_native` result whose first occurrence has positive
throughput and also contains some `u64_add_emulated` result; it is `none`
otherwise (in particular when either variant is missing). -/
theorem u64_overhead_isSome_iff (rep : BenchmarkReport) :
    (rep.u64_overhead).isSome = true ↔
      ((∃ n, rep.results.find? (fun r => r.operation == "u64_add_native") =
          some n ∧ 0 < n.gops_per_second) ∧
       ∃ e ∈ rep.results, e.operation = "u64_add_emulated") := by
  unfold BenchmarkReport.u64_overhead
  cases hfn : rep.results.find? (fun r => r.operation == "u64_add_native") with
  | none =>
    simp only [Option.isSome_none, hfn]
    constructor
    · intro h
      cases h
    · rintro ⟨⟨n, hn, _⟩, _⟩
      cases hn
  | some n =>
    cases hfe : rep.results.find?
        (fun r => r.operation == "u64_add_emulated") with
    | none =>
      have hno : ∀ e ∈ rep.results, ¬e.operation = "u64_add_emulated" := by
        intro e he
        have := List.find?_eq_none.mp hfe e he
        simpa using this
      simp only [Option.isSome_none]
      constructor
      · intro h
        cases h
      · rintro ⟨_, e, he, hop⟩
        exact absurd hop (hno e he)
    | some e =>
      have hee : e ∈ rep.results := List.mem_of_find?_eq_some hfe
      have heo : e.operation = "u64_add_emulated" := by
        have := List.find?_some hfe
        simpa using this
      by_cases hg : 0 < n.gops_per_second
      · simp only [if_pos hg, Option.isSome_some, true_iff]
        exact ⟨⟨n, rfl, hg⟩, e, hee, heo⟩
      · simp only [if_neg hg, Option.isSome_none]
        constructor
        · intro h
          cases h
        · rintro ⟨⟨m, hm, hmg⟩, _⟩
          cases hm
          exact absurd hmg hg

end FieldOps

namespace FieldOps

/-- Source per-operation loop shared by `run_metal_benchmarks` and
`run_webgpu_benchmarks` in `src/main.rs` (terminal spinner output elided;
the runner's `run_benchmark` is abstracted as a function into `Except`):
on `Ok(result)` the result is appended to the report, on `Err` nothing is
appended and the loop proceeds to the next operation. -/
def run_session (runner : Operation → Except BenchmarkError BenchmarkResult)
    (operations : List Operation) (report : BenchmarkReport) :
    BenchmarkReport :=
  operations.foldl (fun rep op =>
    match runner op with
    | .ok result => rep.add_result result
    | .error _ => rep) report

/-- C7: a session run appends exactly the successful results, in
operation order: each failing operation contributes zero entries and each
succeeding operation exactly one, with no partial or fabricated result. -/
theorem run_session_results
    (runner : Operation → Except BenchmarkError BenchmarkResult)
    (operations : List Operation) (report : BenchmarkReport) :
    (run_session runner operations report).results =
      report.results ++ operations.filterMap (fun op =>
        match runner op with
        | .ok result => some result
        | .error _ => none) := by
  induction operations generalizing report with
  | nil => simp [run_session]
  | cons op ops ih =>
    cases h : runner op with
    | ok result =>
      have hstep : run_session runner (op :: ops) report =
          run_session runner ops (report.add_result result) := by
        simp [run_session, h]
      rw [hstep, ih (report.add_result result)]
      simp [BenchmarkReport.add_result, List.filterMap_cons, h]
    | error e =>
      have hstep : run_session runner (op :: ops) report =
          run_session runner ops report := by
        simp [run_session, h]
      rw [hstep, ih report]
      simp [List.filterMap_cons, h]

/-- Source `merge_reports` from `src/reporter.rs` (modulo the omitted
timestamp of `BenchmarkReport::new`): joins the device names and vendor
labels with `" + "` and appends every result of every report, in report
order and per-report insertion order. -/
def merge_reports (reports : List BenchmarkReport) : BenchmarkReport :=
  let combined := BenchmarkReport.new
    (String.intercalate " + " (reports.map BenchmarkReport.device_name))
    (String.intercalate " + " (reports.map BenchmarkReport.device_vendor))
  reports.foldl (fun acc rep =>
    rep.results.foldl (fun acc result => acc.add_result result) acc) combined

/-- Folding `add_result` over a result list appends that list. -/
theorem foldl_add_result (rs : List BenchmarkResult) (acc : BenchmarkReport) :
    rs.foldl (fun acc result => acc.add_result result) acc =
      { acc with results := acc.results ++ rs } := by
  induction rs generalizing acc with
  | nil => simp
  | cons r rs ih =>
    rw [List.foldl_cons, ih]
    simp [BenchmarkReport.add_result]

/-- The merged result sequence is the concatenation of the input
reports' result lists. -/
theorem merge_reports_results (reports : List BenchmarkReport) :
    (merge_reports reports).results =
      (reports.map BenchmarkReport.results).flatten := by
  unfold merge_reports
  suffices h : ∀ acc : BenchmarkReport,
      (reports.foldl (fun acc rep =>
        rep.results.foldl (fun acc result => acc.add_result result) acc)
        acc).results = acc.results ++ (reports.map BenchmarkReport.results).flatten by
    simpa [BenchmarkReport.new] using h (BenchmarkReport.new
      (String.intercalate " + " (reports.map BenchmarkReport.device_name))
      (String.intercalate " + " (reports.map BenchmarkReport.device_vendor)))
  induction reports with
  | nil => intro acc; simp
  | cons rep reps ih =>
    intro acc
    rw [List.foldl_cons, foldl_add_result, ih]
    simp

/-- Folding the merge step over reports leaves the device name alone. -/
theorem merge_foldl_device_name (reports : List BenchmarkReport)
    (acc : BenchmarkReport) :
    (reports.foldl (fun acc rep =>
      rep.results.foldl (fun acc result => acc.add_result result) acc)
        acc).device_name = acc.device_name := by
  induction reports generalizing acc with
  | nil => rfl
  | cons rep reps ih =>
    rw [List.foldl_cons, foldl_add_result, ih]

/-- Folding the merge step over reports leaves the vendor label alone. -/
theorem merge_foldl_device_vendor (reports : List BenchmarkReport)
    (acc : BenchmarkReport) :
    (reports.foldl (fun acc rep =>
      rep.results.foldl (fun acc result => acc.add_result result) acc)
        acc).device_vendor = acc.device_vendor := by
  induction reports generalizing acc with
  | nil => rfl
  | cons rep reps ih =>
    rw [List.foldl_cons, foldl_add_result, ih]

/-- The merged device name joins the input names with `" + "`. -/
theorem merge_reports_device_name (reports : List BenchmarkReport) :
    (merge_reports reports).device_name =
      String.intercalate " + " (reports.map BenchmarkReport.device_name) := by
  unfold merge_reports
  rw [merge_foldl_device_name]
  rfl

/-- The merged vendor label joins the input vendors with `" + "`. -/
theorem merge_reports_device_vendor (reports : List BenchmarkReport) :
    (merge_reports reports).device_vendor =
      String.intercalate " + " (reports.map BenchmarkReport.device_vendor) := by
  unfold merge_reports
  rw [merge_foldl_device_vendor]
  rfl

/-- C8: `merge_reports` is order-preserving (the merged result list is
the concatenation of the inputs' result lists in report order, each in
insertion order) and associative on three reports: nesting the merge on
the left, on the right, or flattening it gives the same result sequence
and the same joined device/vendor labels. -/
theorem merge_reports_spec :
    (∀ reports : List BenchmarkReport,
      (merge_reports reports).results =
        (reports.map BenchmarkReport.results).flatten) ∧
    ∀ a b c : BenchmarkReport,
      (merge_reports [merge_reports [a, b], c]).results =
        (merge_reports [a, b, c]).results ∧
      (merge_reports [a, merge_reports [b, c]]).results =
        (merge_reports [a, b, c]).results ∧
      (merge_reports [merge_reports [a, b], c]).device_name =
        (merge_reports [a, b, c]).device_name ∧
      (merge_reports [a, merge_reports [b, c]]).device_name =
        (merge_reports [a, b, c]).device_name ∧
      (merge_reports [merge_reports [a, b], c]).device_vendor =
        (merge_reports [a, b, c]).device_vendor ∧
      (merge_reports [a, merge_reports [b, c]]).device_vendor =
        (merge_reports [a, b, c]).device_vendor := by
  refine ⟨merge_reports_results, fun a b c => ?_⟩
  have hname := merge_reports_device_name
  have hvendor := merge_reports_device_vendor
  refine ⟨?_, ?_, ?_, ?_, ?_, ?_⟩
  · simp [merge_reports_results]
  · simp [merge_reports_results]
  · simp only [hname, List.map_cons, List.map_nil]
    simp [String.intercalate, String.intercalate.go, String.append_assoc]
  · simp only [hname, List.map_cons, List.map_nil]
    simp [String.intercalate, String.intercalate.go, String.append_assoc]
  · simp only [hvendor, List.map_cons, List.map_nil]
    simp [String.intercalate, String.intercalate.go, String.append_assoc]
  · simp only [hvendor, List.map_cons, List.map_nil]
    simp [String.intercalate, String.intercalate.go, String.append_assoc]

end FieldOps

namespace FieldOps

/-- Source `MetalRunner::create_input_buffer` from `src/metal/runner.rs`
(data contents only; the GPU buffer object is external): `count` elements
(the caller passes `total_threads`), element `i` being
`seed.wrapping_add(i as u32).wrapping_mul(0x9E3779B9)` in wrapping 32-bit
arithmetic. -/
def metal_create_input_buffer (count seed : Nat) : List Nat :=
  (List.range count).map (fun i =>
    ((seed + i % 2 ^ 32) % 2 ^ 32 * 0x9E3779B9) % 2 ^ 32)

/-- Source `WebGpuRunner::create_input_buffer` from
`src/webgpu/runner.rs` (data contents only): always `(0..16u32)`, element
`i` being `seed.wrapping_add(i).wrapping_mul(0x9E3779B9)` in wrapping
32-bit arithmetic — 16 elements regardless of the configuration. -/
def webgpu_create_input_buffer (seed : Nat) : List Nat :=
  (List.range 16).map (fun i =>
    ((seed + i) % 2 ^ 32 * 0x9E3779B9) % 2 ^ 32)

/-- C4 counterexample: with the default configuration
(`workgroup_size = 64`, `num_workgroups = 1024`, so `total_threads =
65536`), the WebGPU input buffer holds 16 elements, not `total_threads`
elements. -/
theorem webgpu_input_buffer_not_total_threads :
    (webgpu_create_input_buffer BenchmarkConfig.default.seed).length = 16 ∧
    BenchmarkConfig.default.total_threads = 65536 ∧
    (webgpu_create_input_buffer BenchmarkConfig.default.seed).length ≠
      BenchmarkConfig.default.total_threads := by
  decide

/-- C4 (amended): the Metal input buffer has exactly `count =
total_threads` elements and the WebGPU input buffer always has exactly 16
elements; on both backends element `i` is `(seed + i) * 0x9E3779B9` in
wrapping 32-bit arithmetic (both functions are pure, so identical seeds
reproduce identical buffers), and the two backends agree on every index
they share. -/
theorem input_buffer_spec (count seed i j : Nat) (hi : i < count)
    (hj : j < 16) :
    (metal_create_input_buffer count seed).length = count ∧
    (webgpu_create_input_buffer seed).length = 16 ∧
    (metal_create_input_buffer count seed).getD i 0 =
      ((seed + i % 2 ^ 32) % 2 ^ 32 * 0x9E3779B9) % 2 ^ 32 ∧
    (webgpu_create_input_buffer seed).getD j 0 =
      ((seed + j) % 2 ^ 32 * 0x9E3779B9) % 2 ^ 32 ∧
    (j < count →
      (metal_create_input_buffer count seed).getD j 0 =
        (webgpu_create_input_buffer seed).getD j 0) := by
  refine ⟨?_, ?_, ?_, ?_, ?_⟩
  · simp [metal_create_input_buffer]
  · simp [webgpu_create_input_buffer]
  · simp [metal_create_input_buffer, List.getD_eq_getElem?_getD,
      List.getElem?_map, List.getElem?_range, hi]
  · simp [webgpu_create_input_buffer, List.getD_eq_getElem?_getD,
      List.getElem?_map, List.getElem?_range, hj]
  · intro hjc
    have hj32 : j % 2 ^ 32 = j := Nat.mod_eq_of_lt (by omega)
    simp [metal_create_input_buffer, webgpu_create_input_buffer,
      List.getD_eq_getElem?_getD, List.getElem?_map, List.getElem?_range,
      hjc, hj, hj32]

/-- C4 witness: the amended buffer contract at `count = 32`,
`seed = 0x12345678`, metal index 20 and shared index 3. -/
theorem input_buffer_spec_witness :
    (20 < 32 ∧ 3 < 16) ∧
    ((metal_create_input_buffer 32 0x12345678).length = 32 ∧
      (webgpu_create_input_buffer 0x12345678).length = 16 ∧
      (metal_create_input_buffer 32 0x12345678).getD 20 0 =
        ((0x12345678 + 20 % 2 ^ 32) % 2 ^ 32 * 0x9E3779B9) % 2 ^ 32 ∧
      (webgpu_create_input_buffer 0x12345678).getD 3 0 =
        ((0x12345678 + 3) % 2 ^ 32 * 0x9E3779B9) % 2 ^ 32 ∧
      (3 < 32 →
        (metal_create_input_buffer 32 0x12345678).getD 3 0 =
          (webgpu_create_input_buffer 0x12345678).getD 3 0)) :=
  ⟨⟨by decide, by decide⟩,
    input_buffer_spec 32 0x12345678 20 3 (by decide) (by decide)⟩

end FieldOps

namespace FieldOps

/-- Source `get_display_name` from `src/reporter.rs`: canonical display
name mapping both wide-add variants to `u64_add`, anything else to
itself. -/
def get_display_name (op : String) : String :=
  if op == "u64_add_native" || op == "u64_add_emulated" then "u64_add"
  else op

/-- Source `get_operation_order` from `src/reporter.rs` (the nested
helper of `print_comparison`): the fixed priority table, everything
unlisted mapping to 100. -/
def get_operation_order (op : String) : Nat :=
  if op == "u32_add" then 0
  else if op == "u64_add" then 1
  else if op == "m31_field_add" then 2
  else if op == "m31_field_mul" then 3
  else if op == "bn254_field_add" then 4
  else if op == "bn254_field_mul" then 5
  else 100

/-- Source first loop of `print_comparison` in `src/reporter.rs`: collect
the canonical names of all results across the reports, first occurrence
first, without duplicates. -/
def collect_canonical_ops (reports : List BenchmarkReport) : List String :=
  reports.foldl (fun all_ops rep =>
    rep.results.foldl (fun all_ops r =>
      let canonical := get_display_name r.operation
      if all_ops.contains canonical then all_ops
      else all_ops ++ [canonical]) all_ops) []

/-- Stable insertion into a list sorted by `get_operation_order`: the new
element goes after every element whose key is less than or equal to its
own, modelling the stability of Rust's `sort_by_key`. -/
def insert_by_order (x : String) : List String → List String
  | [] => [x]
  | y :: ys =>
    if get_operation_order y ≤ get_operation_order x then
      y :: insert_by_order x ys
    else x :: y :: ys

/-- Source `all_ops.sort_by_key(|op| get_operation_order(op))` from
`print_comparison` in `src/reporter.rs`, modelled as a stable insertion
sort (Rust's `sort_by_key` is stable). -/
def sort_by_order (l : List String) : List String :=
  l.foldl (fun acc x => insert_by_order x acc) []

/-- Source row-key computation of `print_comparison` in
`src/reporter.rs`: the canonical operation keys, sorted by the priority
table. -/
def comparison_rows (reports : List BenchmarkReport) : List String :=
  sort_by_order (collect_canonical_ops reports)

/-- C5 failing input: a report whose results were inserted as BN254
multiply then BN254 add. The priority table's keys (`m31_field_add`,
`m31_field_mul`, `bn254_field_add`, `bn254_field_mul`) never match the
names produced by `Operation::name` (`mersenne_field_add`,
`mersenne_field_mul`, `field_add`, `field_mul`), so every field
operation is unclassified (priority 100) and the rows keep insertion
order: `["field_mul", "field_add"]` — large-field multiply before
large-field add — and the reversed insertion yields the reversed rows. -/
theorem comparison_rows_stale_table :
    comparison_rows [BenchmarkReport.mk "Dev" "Vendor"
        [BenchmarkResult.from_timings Backend.WebGPU Operation.FieldMul
           64 65536 20 [1000],
         BenchmarkResult.from_timings Backend.WebGPU Operation.FieldAdd
           64 65536 20 [1000]]] = ["field_mul", "field_add"] ∧
    comparison_rows [BenchmarkReport.mk "Dev" "Vendor"
        [BenchmarkResult.from_timings Backend.WebGPU Operation.FieldAdd
           64 65536 20 [1000],
         BenchmarkResult.from_timings Backend.WebGPU Operation.FieldMul
           64 65536 20 [1000]]] = ["field_add", "field_mul"] ∧
    get_operation_order (get_display_name Operation.FieldAdd.name) = 100 ∧
    get_operation_order (get_display_name Operation.FieldMul.name) = 100 ∧
    get_operation_order
      (get_display_name Operation.MersenneFieldAdd.name) = 100 ∧
    get_operation_order
      (get_display_name Operation.MersenneFieldMul.name) = 100 ∧
    get_operation_order "bn254_field_add" = 4 ∧
    get_operation_order "m31_field_add" = 2 := by
  decide

end FieldOps
